import Mathlib

/-!
Shallow embedding of the incremental data cache and run-lifecycle ledger
implemented in src/data_manager.py (class DataManager backed by SQLite),
together with theorems settling the specification claims about it.

Modelling conventions:
- A Python datetime is a pair of an absolute calendar day number and a
  time-of-day measured in microseconds (Python datetime resolution).
  datetime.date() projects the day, datetime.min.time() is 0 and
  datetime.max.time() is usPerDay - 1.  (end - start).days is floor
  division of the microsecond difference by usPerDay, matching the
  normalisation of Python timedelta.
- The scrape_history table (PRIMARY KEY (platform, scrape_date)) is a list
  of (platform, day) pairs in insertion order with INSERT OR IGNORE
  modelled as insert-if-absent; ISO date strings compare like day numbers,
  so scrape_date is kept as the day number.
- The reviews table is a list of rows in rowid order; its
  UNIQUE(platform, review_text, date) constraint makes INSERT OR IGNORE a
  no-op when the key is already present.  The id column is always NULL in
  rows written by save_reviews and SQLite admits repeated NULLs there.
- run_history is a list of rows; INSERT OR REPLACE on the run_id primary
  key deletes the conflicting row and appends the new one.
- Python dict records are structures of Option fields; a missing mandatory
  key raises KeyError, which save_reviews catches per record.
-/

namespace Pulse

/-- Microseconds in a day: the resolution of Python datetime arithmetic. -/
def usPerDay : Int := 86400000000

/-- A Python datetime: absolute day number plus time-of-day in microseconds.
A value is well formed when `0 ≤ tod < usPerDay`. -/
structure PyDateTime where
  day : Int
  tod : Int
deriving DecidableEq

/-- Well-formedness of the time-of-day component. -/
def validTod (x : PyDateTime) : Prop := 0 ≤ x.tod ∧ x.tod < usPerDay

/-- Microsecond difference `e - s`, as a Python timedelta. -/
def dtSub (e s : PyDateTime) : Int := (e.day - s.day) * usPerDay + (e.tod - s.tod)

/-- The `.days` field of a Python timedelta: floor division by one day. -/
def tdDays (x : Int) : Int := x.fdiv usPerDay

/-- Python datetime comparison (lexicographic on day then time-of-day). -/
def dtLe (x y : PyDateTime) : Prop := x.day < y.day ∨ (x.day = y.day ∧ x.tod ≤ y.tod)

/-- datetime.combine(day, datetime.min.time()). -/
def dayStart (d : Int) : PyDateTime := ⟨d, 0⟩

/-- datetime.combine(day, datetime.max.time()). -/
def dayEnd (d : Int) : PyDateTime := ⟨d, usPerDay - 1⟩

/-- The scrape_history table: (platform, scrape day) pairs in rowid order. -/
abbrev ScrapeHistory := List (String × Int)

/-- The consecutive day numbers `t, t+1, ..., t+k-1`: the days visited by
`for i in range(k): day = (start + timedelta(days=i)).date()`. -/
def daysFrom (t : Int) : Nat → List Int
  | 0 => []
  | Nat.succ k => t :: daysFrom (t + 1) k

/-- One INSERT OR IGNORE INTO scrape_history (platform, scrape_date). -/
def markStep (p : String) (acc : ScrapeHistory) (d : Int) : ScrapeHistory :=
  if acc.contains (p, d) then acc else acc ++ [(p, d)]

/-- DataManager.mark_scraped: marks every day of the closed range as scraped
for the platform, one insert-if-absent per day. -/
def markScraped (h : ScrapeHistory) (p : String) (s e : PyDateTime) : ScrapeHistory :=
  (daysFrom s.day (tdDays (dtSub e s) + 1).toNat).foldl (markStep p) h

/-- The SQL filter of get_missing_ranges: day `d` counts as covered when
scrape_history holds (platform, d) and `start.date() ≤ d ≤ end.date()`. -/
def covQuery (h : ScrapeHistory) (p : String) (s e : PyDateTime) (d : Int) : Bool :=
  h.contains (p, d) && decide (s.day ≤ d) && decide (d ≤ e.day)

/-- The day-walk loop of get_missing_ranges: `cs` is the open current-run
start (current_start), a covered day closes the open run at the end of the
previous day, and a run still open after the walk closes at `e`. -/
def gapWalk (cov : Int → Bool) (e : PyDateTime) :
    Option PyDateTime → List Int → List (PyDateTime × PyDateTime)
  | none, [] => []
  | some c, [] => [(c, e)]
  | none, d :: rest =>
      if cov d then gapWalk cov e none rest
      else gapWalk cov e (some (dayStart d)) rest
  | some c, d :: rest =>
      if cov d then (c, dayEnd (d - 1)) :: gapWalk cov e none rest
      else gapWalk cov e (some c) rest

/-- DataManager.get_missing_ranges: walk the days of the query interval and
collapse the uncovered ones into ranges. -/
def getMissingRanges (h : ScrapeHistory) (p : String) (s e : PyDateTime) :
    List (PyDateTime × PyDateTime) :=
  gapWalk (covQuery h p s e) e none (daysFrom s.day (tdDays (dtSub e s) + 1).toNat)

/-- DataManager.has_platform_history: SELECT 1 ... WHERE platform = ? LIMIT 1. -/
def hasPlatformHistory (h : ScrapeHistory) (p : String) : Bool :=
  h.any (fun r => r.1 == p)

/-- Spec-side helper for the gap claims: extend the pending run (lo, hi) with
the remaining sorted day list, starting a new run at each non-consecutive day. -/
def runsAux (lo hi : Int) : List Int → List (Int × Int)
  | [] => [(lo, hi)]
  | d :: rest => if d = hi + 1 then runsAux lo d rest else (lo, hi) :: runsAux d d rest

/-- Spec-side definition, following the wording of the specification: a sorted
list of missing days merged into maximal contiguous runs of consecutive days. -/
def collapseRuns : List Int → List (Int × Int)
  | [] => []
  | d :: rest => runsAux d d rest

/-- Day-level projection of a returned range. -/
def rangeDays (r : PyDateTime × PyDateTime) : Int × Int := (r.1.day, r.2.day)

/-! ### Arithmetic of the day walk -/

theorem tdDays_dtSub (s e : PyDateTime) (hs : validTod s) (he : validTod e) :
    tdDays (dtSub e s) = if s.tod ≤ e.tod then e.day - s.day else e.day - s.day - 1 := by
  obtain ⟨hs0, hs1⟩ := hs
  obtain ⟨he0, he1⟩ := he
  simp only [usPerDay] at hs1 he1
  simp only [tdDays, dtSub, usPerDay]
  rw [Int.fdiv_eq_ediv _ (by norm_num)]
  split <;> omega

theorem mem_daysFrom : ∀ (k : Nat) (t d : Int), d ∈ daysFrom t k ↔ t ≤ d ∧ d < t + k := by
  intro k
  induction k with
  | zero => intro t d; simp [daysFrom]
  | succ k ih =>
      intro t d
      simp only [daysFrom, List.mem_cons, ih]
      push_cast
      omega

/-! ### Lemmas about mark_scraped -/

theorem mem_markStep (p : String) (acc : ScrapeHistory) (d : Int) (x : String × Int) :
    x ∈ markStep p acc d ↔ x ∈ acc ∨ x = (p, d) := by
  unfold markStep
  split
  · rename_i hc
    simp only [List.contains, List.elem_eq_mem, decide_eq_true_iff] at hc
    constructor
    · exact Or.inl
    · rintro (h | rfl)
      · exact h
      · exact hc
  · simp [List.mem_append]

theorem mem_foldl_markStep (p : String) :
    ∀ (L : List Int) (acc : ScrapeHistory) (x : String × Int),
      x ∈ L.foldl (markStep p) acc ↔ x ∈ acc ∨ (x.1 = p ∧ x.2 ∈ L) := by
  intro L
  induction L with
  | nil => simp
  | cons d rest ih =>
      intro acc x
      simp only [List.foldl_cons, ih, mem_markStep, List.mem_cons]
      constructor
      · rintro ((h | rfl) | h)
        · exact Or.inl h
        · exact Or.inr ⟨rfl, Or.inl rfl⟩
        · exact Or.inr ⟨h.1, Or.inr h.2⟩
      · rintro (h | ⟨h1, (h2 | h2)⟩)
        · exact Or.inl (Or.inl h)
        · refine Or.inl (Or.inr ?_)
          cases x
          simp_all
        · exact Or.inr ⟨h1, h2⟩

theorem foldl_markStep_of_mem (p : String) :
    ∀ (L : List Int) (acc : ScrapeHistory),
      (∀ d ∈ L, (p, d) ∈ acc) → L.foldl (markStep p) acc = acc := by
  intro L
  induction L with
  | nil => intro acc _; rfl
  | cons d rest ih =>
      intro acc hall
      have hd : (p, d) ∈ acc := hall d (List.mem_cons_self d rest)
      have hstep : markStep p acc d = acc := by
        unfold markStep
        rw [if_pos]
        simp only [List.contains, List.elem_eq_mem, decide_eq_true_iff]
        exact hd
      simp only [List.foldl_cons, hstep]
      exact ih acc fun x hx => hall x (List.mem_cons_of_mem d hx)

theorem mem_markScraped (h : ScrapeHistory) (p : String) (s e : PyDateTime)
    (hs : validTod s) (he : validTod e) (ht : s.tod ≤ e.tod) (q : String) (d : Int) :
    (q, d) ∈ markScraped h p s e ↔ (q, d) ∈ h ∨ (q = p ∧ s.day ≤ d ∧ d ≤ e.day) := by
  unfold markScraped
  rw [mem_foldl_markStep]
  rw [tdDays_dtSub s e hs he, if_pos ht]
  rcases le_or_lt s.day e.day with hle | hlt
  · have hn : ((e.day - s.day + 1).toNat : Int) = e.day - s.day + 1 := by omega
    rw [mem_daysFrom]
    constructor
    · rintro (hh | ⟨h1, h2⟩)
      · exact Or.inl hh
      · exact Or.inr ⟨h1, by omega⟩
    · rintro (hh | ⟨h1, h2⟩)
      · exact Or.inl hh
      · exact Or.inr ⟨h1, by omega⟩
  · have hn : (e.day - s.day + 1).toNat = 0 := by omega
    rw [hn]
    simp only [daysFrom, List.not_mem_nil, and_false, or_false, false_or]
    constructor
    · exact Or.inl
    · rintro (hh | ⟨_, h2, h3⟩)
      · exact hh
      · omega

theorem markScraped_idem (h : ScrapeHistory) (p : String) (s e : PyDateTime) :
    markScraped (markScraped h p s e) p s e = markScraped h p s e := by
  unfold markScraped
  apply foldl_markStep_of_mem
  intro d hd
  rw [mem_foldl_markStep]
  exact Or.inr ⟨rfl, hd⟩

/-! ### Lemmas about the gap walk -/

theorem daysFrom_succ (t : Int) (k : Nat) : daysFrom t (k + 1) = t :: daysFrom (t + 1) k := rfl

theorem gapWalk_none_nil (cov : Int → Bool) (e : PyDateTime) :
    gapWalk cov e none [] = [] := rfl

theorem gapWalk_some_nil (cov : Int → Bool) (e : PyDateTime) (c : PyDateTime) :
    gapWalk cov e (some c) [] = [(c, e)] := rfl

theorem gapWalk_none_cons (cov : Int → Bool) (e : PyDateTime) (d : Int) (rest : List Int) :
    gapWalk cov e none (d :: rest)
      = if cov d then gapWalk cov e none rest
        else gapWalk cov e (some (dayStart d)) rest := rfl

theorem gapWalk_some_cons (cov : Int → Bool) (e c : PyDateTime) (d : Int) (rest : List Int) :
    gapWalk cov e (some c) (d :: rest)
      = if cov d then (c, dayEnd (d - 1)) :: gapWalk cov e none rest
        else gapWalk cov e (some c) rest := rfl

theorem runsAux_cons_of_gt (lo hi : Int) (L : List Int) (hL : ∀ d ∈ L, hi + 1 < d) :
    runsAux lo hi L = (lo, hi) :: collapseRuns L := by
  cases L with
  | nil => rfl
  | cons d rest =>
      have hd : hi + 1 < d := hL d (List.mem_cons_self d rest)
      simp only [runsAux, collapseRuns, if_neg (by omega : ¬ d = hi + 1)]

/-- The heart of the gap-finding claim: at the day level, the walk over the
consecutive days `t, ..., t+k-1` emits exactly the maximal consecutive runs of
uncovered days, with a still-open run closed at the day of `e`.  The side
condition ties the end of the walk to the day of `e`. -/
theorem gapWalk_collapse (cov : Int → Bool) (e : PyDateTime) :
    ∀ (k : Nat) (t : Int), t + (k : Int) = e.day + 1 →
      ((gapWalk cov e none (daysFrom t k)).map rangeDays
          = collapseRuns ((daysFrom t k).filter (fun d => !cov d)))
      ∧ ∀ (c : PyDateTime),
          (gapWalk cov e (some c) (daysFrom t k)).map rangeDays
            = runsAux c.day (t - 1) ((daysFrom t k).filter (fun d => !cov d)) := by
  intro k
  induction k with
  | zero =>
      intro t ht
      push_cast at ht
      refine ⟨rfl, fun c => ?_⟩
      show [rangeDays (c, e)] = [(c.day, t - 1)]
      simp only [rangeDays]
      rw [show e.day = t - 1 by omega]
  | succ k ih =>
      intro t ht
      push_cast at ht
      obtain ⟨ihA, ihB⟩ := ih (t + 1) (by omega)
      constructor
      · rw [daysFrom_succ, gapWalk_none_cons]
        cases hc : cov t with
        | true =>
            rw [if_pos rfl, List.filter_cons_of_neg (by simp [hc])]
            exact ihA
        | false =>
            rw [if_neg (by simp), List.filter_cons_of_pos (by simp [hc])]
            rw [ihB (dayStart t)]
            simp only [collapseRuns, dayStart]
            rw [show t + 1 - 1 = t by omega]
      · intro c
        rw [daysFrom_succ, gapWalk_some_cons]
        cases hc : cov t with
        | true =>
            rw [if_pos rfl, List.filter_cons_of_neg (by simp [hc])]
            rw [List.map_cons, ihA]
            rw [runsAux_cons_of_gt]
            · simp only [rangeDays, dayEnd]
            · intro d hd
              have hd' := (List.mem_filter.mp hd).1
              rw [mem_daysFrom] at hd'
              omega
        | false =>
            rw [if_neg (by simp), List.filter_cons_of_pos (by simp [hc])]
            rw [ihB c]
            simp only [runsAux]
            rw [if_pos (by omega : t = t - 1 + 1)]
            rw [show t + 1 - 1 = t by omega]

/-- A walk in which every day is covered emits nothing. -/
theorem gapWalk_all_covered (cov : Int → Bool) (e : PyDateTime) :
    ∀ (L : List Int), (∀ d ∈ L, cov d = true) → gapWalk cov e none L = [] := by
  intro L
  induction L with
  | nil => intro _; rfl
  | cons d rest ih =>
      intro hall
      rw [gapWalk_none_cons, if_pos (hall d (List.mem_cons_self d rest))]
      exact ih fun x hx => hall x (List.mem_cons_of_mem d hx)

/-- A walk with an open run in which no remaining day is covered closes the
single open run at the original end datetime. -/
theorem gapWalk_none_covered (cov : Int → Bool) (e c : PyDateTime) :
    ∀ (L : List Int), (∀ d ∈ L, cov d = false) → gapWalk cov e (some c) L = [(c, e)] := by
  intro L
  induction L with
  | nil => intro _; rfl
  | cons d rest ih =>
      intro hall
      rw [gapWalk_some_cons, if_neg (by simp [hall d (List.mem_cons_self d rest)])]
      exact ih fun x hx => hall x (List.mem_cons_of_mem d hx)

/-- Every emitted range starts at a midnight, provided any pending run does. -/
theorem gapWalk_fst_tod (cov : Int → Bool) (e : PyDateTime) :
    ∀ (L : List Int) (cs : Option PyDateTime),
      (∀ c, cs = some c → c.tod = 0) →
      ∀ r ∈ gapWalk cov e cs L, r.1.tod = 0 := by
  intro L
  induction L with
  | nil =>
      intro cs hcs r hr
      cases cs with
      | none => simp [gapWalk_none_nil] at hr
      | some c =>
          rw [gapWalk_some_nil] at hr
          rcases List.mem_singleton.mp hr with rfl
          exact hcs c rfl
  | cons d rest ih =>
      intro cs hcs r hr
      cases cs with
      | none =>
          rw [gapWalk_none_cons] at hr
          by_cases hc : cov d = true
          · rw [if_pos hc] at hr
            exact ih none (by simp) r hr
          · rw [if_neg hc] at hr
            exact ih (some (dayStart d)) (by intro c hcc; cases hcc; rfl) r hr
      | some c =>
          rw [gapWalk_some_cons] at hr
          by_cases hc : cov d = true
          · rw [if_pos hc] at hr
            rcases List.mem_cons.mp hr with rfl | hr'
            · exact hcs c rfl
            · exact ih none (by simp) r hr'
          · rw [if_neg hc] at hr
            exact ih (some c) hcs r hr

/-- Every emitted range ends either at the original end datetime or at the
last microsecond of a day. -/
theorem gapWalk_snd_tod (cov : Int → Bool) (e : PyDateTime) :
    ∀ (L : List Int) (cs : Option PyDateTime),
      ∀ r ∈ gapWalk cov e cs L, r.2 = e ∨ r.2.tod = usPerDay - 1 := by
  intro L
  induction L with
  | nil =>
      intro cs r hr
      cases cs with
      | none => simp [gapWalk_none_nil] at hr
      | some c =>
          rw [gapWalk_some_nil] at hr
          rcases List.mem_singleton.mp hr with rfl
          exact Or.inl rfl
  | cons d rest ih =>
      intro cs r hr
      cases cs with
      | none =>
          rw [gapWalk_none_cons] at hr
          by_cases hc : cov d = true
          · rw [if_pos hc] at hr; exact ih none r hr
          · rw [if_neg hc] at hr; exact ih (some (dayStart d)) r hr
      | some c =>
          rw [gapWalk_some_cons] at hr
          by_cases hc : cov d = true
          · rw [if_pos hc] at hr
            rcases List.mem_cons.mp hr with rfl | hr'
            · exact Or.inr rfl
            · exact ih none r hr'
          · rw [if_neg hc] at hr; exact ih (some c) r hr

/-! ### Review Store (reviews table and save_reviews) -/

/-- A review record handed to save_reviews: a Python dict whose keys may be
absent.  A missing mandatory key raises KeyError, which the per-record
exception handler logs and skips.  The date value is kept as its ISO string. -/
structure RawReview where
  platform : Option String
  rating : Option Int
  title : Option String
  review_text : Option String
  reviewText : Option String
  date : Option String
deriving DecidableEq

/-- A row of the reviews table.  save_reviews never supplies the id column,
so it is NULL in every row it writes; SQLite permits repeated NULLs in a TEXT
primary key.  raw_data stores json.dumps of the input record, modelled by the
record itself (the serialisation is injective on the modelled fields). -/
structure ReviewRow where
  id : Option String
  platform : String
  rating : Int
  title : String
  review_text : String
  date : String
  raw_data : RawReview
deriving DecidableEq

/-- The UNIQUE(platform, review_text, date) key of a stored row. -/
def rowKey (row : ReviewRow) : String × String × String :=
  (row.platform, row.review_text, row.date)

/-- r.get("review_text", r.get("reviewText", "")). -/
def rawText (r : RawReview) : String := r.review_text.getD (r.reviewText.getD "")

/-- The dedup key the insert of save_reviews is checked against, for a record
whose mandatory fields are present. -/
def rawKey (r : RawReview) : String × String × String :=
  (r.platform.getD "", rawText r, r.date.getD "")

/-- The record has every key save_reviews reads with mandatory indexing. -/
def wellFormed (r : RawReview) : Prop :=
  r.platform.isSome = true ∧ r.rating.isSome = true ∧ r.date.isSome = true

/-- Does the table already hold a row with this unique key. -/
def hasKey (rows : List ReviewRow) (k : String × String × String) : Bool :=
  rows.any (fun row => rowKey row == k)

/-- The INSERT OR IGNORE of save_reviews for a record whose mandatory keys
are present, together with the bookkeeping around it.  The state carries the
table rows, the cumulative number of rows changed on the connection so far
(conn.total_changes), and the running saved_count.  Note the source
increments saved_count whenever conn.total_changes > 0, a cumulative
counter, not a per-statement one. -/
def saveIns (st : List ReviewRow × Nat × Nat) (p : String) (rat : Int)
    (ttl txt d : String) (r : RawReview) : List ReviewRow × Nat × Nat :=
  match st with
  | (rows, total, saved) =>
    if hasKey rows (p, txt, d) then
      -- INSERT OR IGNORE hits the unique key: no row changes
      (rows, total, if total > 0 then saved + 1 else saved)
    else
      (rows ++ [⟨none, p, rat, ttl, txt, d, r⟩], total + 1,
       if total + 1 > 0 then saved + 1 else saved)

/-- One iteration of the save_reviews loop.  A record lacking a mandatory key
raises KeyError before the insert; the handler logs it and the loop moves on. -/
def saveOne (st : List ReviewRow × Nat × Nat) (r : RawReview) : List ReviewRow × Nat × Nat :=
  match r.platform, r.rating, r.date with
  | some p, some rat, some d => saveIns st p rat (r.title.getD "") (rawText r) d r
  | _, _, _ => st  -- KeyError: logged, record skipped

/-- DataManager.save_reviews: processes the batch on a fresh connection
(total_changes starts at 0) and returns the new table plus the return value. -/
def saveReviews (rows : List ReviewRow) (batch : List RawReview) : List ReviewRow × Nat :=
  let st := batch.foldl saveOne (rows, 0, 0)
  (st.1, st.2.2)

/-- DataManager.get_cached_reviews: rows whose date string lies in the closed
interval (ISO strings compare chronologically). -/
def getCachedReviews (rows : List ReviewRow) (startIso endIso : String) : List ReviewRow :=
  rows.filter (fun row => decide (startIso ≤ row.date) && decide (row.date ≤ endIso))

/-! ### Run Ledger (run_history table) -/

/-- A row of the run_history table as written by upsert_run_log. -/
structure RunRow where
  run_id : String
  status : String
  trigger_source : String
  triggered_by : Option String
  start_date : Option String
  end_date : Option String
  triggered_at : String
  started_at : Option String
  completed_at : Option String
  reviews_processed : Option Int
  themes_identified : Option Int
  error_message : Option String
deriving DecidableEq

/-- The run_data dict passed to upsert_run_log; optional keys may be absent. -/
structure RunData where
  run_id : String
  status : Option String
  trigger_source : Option String
  triggered_by : Option String
  start_date : Option String
  end_date : Option String
  triggered_at : Option String
  started_at : Option String
  completed_at : Option String
  reviews_processed : Option Int
  themes_identified : Option Int
  error_message : Option String
deriving DecidableEq

/-- The row upsert_run_log builds from run_data; `now` stands for
datetime.now().isoformat(), the default for a missing triggered_at. -/
def rowOfData (d : RunData) (now : String) : RunRow :=
  ⟨d.run_id, d.status.getD "triggered", d.trigger_source.getD "manual",
   d.triggered_by, d.start_date, d.end_date, d.triggered_at.getD now,
   d.started_at, d.completed_at, d.reviews_processed, d.themes_identified,
   d.error_message⟩

/-- DataManager.upsert_run_log: INSERT OR REPLACE keyed by the run_id primary
key deletes any conflicting row and appends the fresh row. -/
def upsertRunLog (rows : List RunRow) (d : RunData) (now : String) : List RunRow :=
  rows.filter (fun r => r.run_id != d.run_id) ++ [rowOfData d now]

/-- The keyword arguments update_run_status accepts (its allowed set); a
`none` field means the keyword was not supplied. -/
structure StatusPatch where
  started_at : Option String
  completed_at : Option String
  reviews_processed : Option Int
  themes_identified : Option Int
  error_message : Option String
deriving DecidableEq

/-- The SET clause of update_run_status applied to one matching row. -/
def applyPatch (r : RunRow) (status : String) (kw : StatusPatch) : RunRow :=
  { r with
    status := status
    started_at := match kw.started_at with | some v => some v | none => r.started_at
    completed_at := match kw.completed_at with | some v => some v | none => r.completed_at
    reviews_processed := match kw.reviews_processed with | some v => some v | none => r.reviews_processed
    themes_identified := match kw.themes_identified with | some v => some v | none => r.themes_identified
    error_message := match kw.error_message with | some v => some v | none => r.error_message }

/-- DataManager.update_run_status: UPDATE run_history SET ... WHERE run_id = ?
touches exactly the rows whose run_id matches; zero matches is not an error. -/
def updateRunStatus (rows : List RunRow) (runId status : String) (kw : StatusPatch) : List RunRow :=
  rows.map (fun r => if r.run_id == runId then applyPatch r status kw else r)

/-- DataManager.list_run_history: ORDER BY triggered_at DESC LIMIT ?. -/
def listRunHistory (rows : List RunRow) (lim : Nat) : List RunRow :=
  (rows.mergeSort (fun a b => decide (b.triggered_at ≤ a.triggered_at))).take lim

/-- DataManager.get_run_log: the row for the run id, or {} (here: none). -/
def getRunLog (rows : List RunRow) (runId : String) : Option RunRow :=
  rows.find? (fun r => r.run_id == runId)

/-! ### Purge Coordinator and the whole store -/

/-- The three tables of the SQLite store. -/
structure DB where
  reviews : List ReviewRow
  scrape_history : ScrapeHistory
  run_history : List RunRow
deriving DecidableEq

/-- The failures purge_data can raise: the RuntimeError guard naming the
number of active runs, or an underlying SQLite failure re-raised after the
transaction rolled back. -/
inductive PurgeErr where
  | activeRuns (count : Nat)
  | storage
deriving DecidableEq

/-- status IN ("triggered", "running"). -/
def isActive (r : RunRow) : Bool := r.status == "triggered" || r.status == "running"

/-- DataManager._init_db: CREATE TABLE IF NOT EXISTS for all three tables
plus additive add-column migrations; on a store that already has the full
schema (which the typed model always has) it changes no content. -/
def initDb (db : DB) : DB := db

/-- DataManager.purge_data.  `deleteFails` injects a storage failure during
the three DELETE statements; the surrounding transaction then rolls back, so
no partial deletion is ever observable and the error is re-raised. -/
def purgeData (db : DB) (deleteFails : Bool) : Except PurgeErr DB :=
  let activeCount := (db.run_history.filter isActive).length
  if activeCount ≠ 0 then Except.error (PurgeErr.activeRuns activeCount)
  else if deleteFails then Except.error PurgeErr.storage
  else Except.ok (initDb ⟨[], [], []⟩)

/-! ### Storage-failure injection for the propagation claim -/

/-- A failure thrown by the storage engine during an operation. -/
inductive StorageErr where
  | sqliteFailure
deriving DecidableEq

/-- mark_scraped with a storage failure injected: no handler in the source,
so the exception propagates to the caller. -/
def markScrapedTry (fail : Bool) (h : ScrapeHistory) (p : String) (s e : PyDateTime) :
    Except StorageErr ScrapeHistory :=
  if fail then Except.error StorageErr.sqliteFailure else Except.ok (markScraped h p s e)

/-- get_missing_ranges with a storage failure injected: no handler in the
source, so the exception propagates to the caller. -/
def getMissingRangesTry (fail : Bool) (h : ScrapeHistory) (p : String) (s e : PyDateTime) :
    Except StorageErr (List (PyDateTime × PyDateTime)) :=
  if fail then Except.error StorageErr.sqliteFailure else Except.ok (getMissingRanges h p s e)

/-- save_reviews with a storage failure injected at connection level
(connect or the final commit): only the individual inserts sit inside the
per-record handler, so a connection-level failure propagates to the caller. -/
def saveReviewsTry (fail : Bool) (rows : List ReviewRow) (batch : List RawReview) :
    Except StorageErr (List ReviewRow × Nat) :=
  if fail then Except.error StorageErr.sqliteFailure else Except.ok (saveReviews rows batch)

/-- get_cached_reviews with a storage failure injected: no handler in the
source, so the exception propagates to the caller. -/
def getCachedReviewsTry (fail : Bool) (rows : List ReviewRow) (startIso endIso : String) :
    Except StorageErr (List ReviewRow) :=
  if fail then Except.error StorageErr.sqliteFailure
  else Except.ok (getCachedReviews rows startIso endIso)

/-- has_platform_history with a storage failure injected: no handler in the
source, so the exception propagates to the caller. -/
def hasPlatformHistoryTry (fail : Bool) (h : ScrapeHistory) (p : String) :
    Except StorageErr Bool :=
  if fail then Except.error StorageErr.sqliteFailure else Except.ok (hasPlatformHistory h p)

/-- upsert_run_log with a storage failure injected: the source catches every
exception, logs it and returns normally, so the caller sees the old state and
no error value at all. -/
def upsertRunLogTry (fail : Bool) (rows : List RunRow) (d : RunData) (now : String) :
    List RunRow :=
  if fail then rows else upsertRunLog rows d now

/-- update_run_status with a storage failure injected: caught and logged,
the caller sees nothing. -/
def updateRunStatusTry (fail : Bool) (rows : List RunRow) (runId status : String)
    (kw : StatusPatch) : List RunRow :=
  if fail then rows else updateRunStatus rows runId status kw

/-- list_run_history with a storage failure injected: caught and logged, the
caller receives [], indistinguishable from an empty history. -/
def listRunHistoryTry (fail : Bool) (rows : List RunRow) (lim : Nat) : List RunRow :=
  if fail then [] else listRunHistory rows lim

/-- get_run_log with a storage failure injected: caught and logged, the
caller receives {}, indistinguishable from a missing run id. -/
def getRunLogTry (fail : Bool) (rows : List RunRow) (runId : String) : Option RunRow :=
  if fail then none else getRunLog rows runId

/-! ### Lemmas about save_reviews -/

theorem saveIns_fst (st : List ReviewRow × Nat × Nat) (p : String) (rat : Int)
    (ttl txt d : String) (r : RawReview) :
    (saveIns st p rat ttl txt d r).1
      = if hasKey st.1 (p, txt, d) then st.1
        else st.1 ++ [⟨none, p, rat, ttl, txt, d, r⟩] := by
  obtain ⟨rows, total, saved⟩ := st
  simp only [saveIns]
  split <;> rfl

theorem hasKey_saveIns (st : List ReviewRow × Nat × Nat) (p : String) (rat : Int)
    (ttl txt d : String) (r : RawReview) :
    hasKey (saveIns st p rat ttl txt d r).1 (p, txt, d) = true := by
  rw [saveIns_fst]
  by_cases hk : hasKey st.1 (p, txt, d) = true
  · rw [if_pos hk]; exact hk
  · rw [if_neg hk]
    simp [hasKey, List.any_append, rowKey]

theorem saveIns_fst_of_hasKey (st : List ReviewRow × Nat × Nat) (p : String) (rat : Int)
    (ttl txt d : String) (r : RawReview) (hk : hasKey st.1 (p, txt, d) = true) :
    (saveIns st p rat ttl txt d r).1 = st.1 := by
  rw [saveIns_fst, if_pos hk]

/-- For a record with its mandatory keys present, saveOne reduces to the
insert step at its dedup key. -/
theorem saveOne_eq_saveIns (st : List ReviewRow × Nat × Nat) (r : RawReview)
    (p : String) (rat : Int) (d : String)
    (hp : r.platform = some p) (hr : r.rating = some rat) (hd : r.date = some d) :
    saveOne st r = saveIns st p rat (r.title.getD "") (rawText r) d r := by
  simp only [saveOne, hp, hr, hd]

theorem rawKey_eq (r : RawReview) (p : String) (d : String)
    (hp : r.platform = some p) (hd : r.date = some d) :
    rawKey r = (p, rawText r, d) := by
  simp [rawKey, hp, hd]

/-! ### Sample rows shared by the concrete witnesses -/

/-- A run row still in flight. -/
def runTriggered : RunRow :=
  ⟨"r1", "triggered", "manual", none, none, none, "2024-01-01T00:00:00",
   none, none, none, none, none⟩

/-- A run row in a terminal state. -/
def runDone : RunRow :=
  ⟨"r2", "succeeded", "manual", none, none, none, "2024-01-02T00:00:00",
   none, none, none, none, none⟩

/-- A well-formed review record. -/
def sampleReview : RawReview :=
  ⟨some "ios", some 5, some "t", some "great", none, some "2024-01-01"⟩

/-! ### Claim theorems -/

/-- C1 counterexample: for the interval from day 1 at 18:00 to day 3 at
06:00 (start ≤ end, both times well formed) with day 3 covered,
(end - start).days + 1 counts only two days, so the walk never examines the
covered final day: the code returns the day-level range (1, 3) although the
complement of the covered days within the interval is the single run (1, 2). -/
theorem c1_missing_ranges_counterexample :
    ((getMissingRanges [("ios", 3)] "ios" ⟨1, 64800000000⟩ ⟨3, 21600000000⟩).map rangeDays
        = [(1, 3)])
    ∧ (collapseRuns ((daysFrom 1 ((3 : Int) - 1 + 1).toNat).filter
          (fun d => !(List.contains [(("ios" : String), (3 : Int))] ("ios", d))))
        = [(1, 2)])
    ∧ ((getMissingRanges [("ios", 3)] "ios" ⟨1, 64800000000⟩ ⟨3, 21600000000⟩).map rangeDays
        ≠ collapseRuns ((daysFrom 1 ((3 : Int) - 1 + 1).toNat).filter
            (fun d => !(List.contains [(("ios" : String), (3 : Int))] ("ios", d)))))
    ∧ dtLe ⟨1, 64800000000⟩ ⟨3, 21600000000⟩ := by
  refine ⟨by decide, by decide, by decide, Or.inl (by decide)⟩

/-- C1 as amended: for every query interval whose start time-of-day does not
exceed its end time-of-day (in particular every day-aligned interval),
get_missing_ranges returns, at the day level, exactly the uncovered days of
the interval merged into the minimal ordered list of maximal runs of
consecutive days; in particular with no coverage the query over days 1..10
yields the single range (1, 10) and after marking days 3..5 scraped it
yields the two ranges (1, 2) and (6, 10).  (When the start time-of-day
exceeds the end time-of-day, the walk covers one day fewer and the result
can differ from the complement, as the counterexample shows.) -/
theorem c1_missing_ranges_complement (h : ScrapeHistory) (p : String) (s e : PyDateTime)
    (hs : validTod s) (he : validTod e) (ht : s.tod ≤ e.tod) :
    ((getMissingRanges h p s e).map rangeDays
        = collapseRuns ((daysFrom s.day (e.day - s.day + 1).toNat).filter
            (fun d => !(h.contains (p, d)))))
    ∧ getMissingRanges [] "ios" ⟨1, 0⟩ ⟨10, 0⟩ = [(⟨1, 0⟩, ⟨10, 0⟩)]
    ∧ (getMissingRanges (markScraped [] "ios" ⟨3, 0⟩ ⟨5, 0⟩) "ios" ⟨1, 0⟩ ⟨10, 0⟩).map rangeDays
        = [(1, 2), (6, 10)] := by
  refine ⟨?_, by decide, by decide⟩
  unfold getMissingRanges
  rw [tdDays_dtSub s e hs he, if_pos ht]
  rcases le_or_lt s.day e.day with hle | hlt
  · have hside : s.day + (((e.day - s.day + 1).toNat : Nat) : Int) = e.day + 1 := by
      omega
    rw [(gapWalk_collapse (covQuery h p s e) e (e.day - s.day + 1).toNat s.day hside).1]
    congr 1
    apply List.filter_congr
    intro d hd
    rw [mem_daysFrom] at hd
    have h1 : s.day ≤ d := hd.1
    have h2 : d ≤ e.day := by omega
    simp [covQuery, h1, h2]
  · rw [show (e.day - s.day + 1).toNat = 0 by omega]
    rfl

/-- C1 witness: the theorem applied to the concrete ten-day scenario. -/
theorem c1_missing_ranges_complement_witness :
    getMissingRanges [] "ios" ⟨1, 0⟩ ⟨10, 0⟩ = [(⟨1, 0⟩, ⟨10, 0⟩)] :=
  (c1_missing_ranges_complement [] "ios" ⟨1, 0⟩ ⟨10, 0⟩
    ⟨by decide, by decide⟩ ⟨by decide, by decide⟩ (by decide)).2.1

/-- C4 counterexample: for a start with a nonzero time-of-day and no
coverage, the single returned range starts at midnight of the start day, not
at the time-of-day of the input start, so it is not the original
(start, end) pair. -/
theorem c4_boundary_counterexample :
    getMissingRanges [] "ios" ⟨0, 43200000000⟩ ⟨2, 0⟩ = [(⟨0, 0⟩, ⟨2, 0⟩)]
    ∧ getMissingRanges [] "ios" ⟨0, 43200000000⟩ ⟨2, 0⟩ ≠ [(⟨0, 43200000000⟩, ⟨2, 0⟩)] := by
  decide

/-- C4 as amended: every returned range starts at midnight of its first
missing day (the time-of-day of the input start is never preserved); every
returned range ends either at the last microsecond of a day (ranges closed
by a covered day) or exactly at the input end, whose time-of-day is
preserved; and when no day is covered for the platform the single returned
range is (midnight of the start day, the original end). -/
theorem c4_boundary_amended (h : ScrapeHistory) (p : String) (s e : PyDateTime) :
    (∀ r ∈ getMissingRanges h p s e, r.1.tod = 0)
    ∧ (∀ r ∈ getMissingRanges h p s e, r.2 = e ∨ r.2.tod = usPerDay - 1)
    ∧ ((∀ d : Int, s.day ≤ d → d ≤ e.day → h.contains (p, d) = false) →
        0 ≤ tdDays (dtSub e s) →
        getMissingRanges h p s e = [(dayStart s.day, e)]) := by
  refine ⟨?_, ?_, ?_⟩
  · intro r hr
    exact gapWalk_fst_tod (covQuery h p s e) e _ none (by intro c hc; cases hc) r hr
  · intro r hr
    exact gapWalk_snd_tod (covQuery h p s e) e _ none r hr
  · intro hno hn
    unfold getMissingRanges
    have hcov : ∀ d, covQuery h p s e d = false := by
      intro d
      by_cases h1 : s.day ≤ d
      · by_cases h2 : d ≤ e.day
        · have hmem := hno d h1 h2
          simp only [List.contains, List.elem_eq_mem, decide_eq_false_iff_not] at hmem
          simp [covQuery, hmem]
        · simp [covQuery, h2]
      · simp [covQuery, h1]
    obtain ⟨k, hk⟩ : ∃ k, (tdDays (dtSub e s) + 1).toNat = k + 1 :=
      ⟨(tdDays (dtSub e s)).toNat, by omega⟩
    rw [hk, daysFrom_succ, gapWalk_none_cons, if_neg (by simp [hcov])]
    exact gapWalk_none_covered _ e _ _ (fun d _ => hcov d)

/-- C4 amended witness: a half-day query over days 0..2, uncovered inside
the interval though the platform has coverage elsewhere (day 99), returns
the single range from midnight of the start day to the original end. -/
theorem c4_boundary_amended_witness :
    getMissingRanges [("ios", 99)] "ios" ⟨0, 43200000000⟩ ⟨2, 0⟩ = [(dayStart 0, ⟨2, 0⟩)] :=
  (c4_boundary_amended [("ios", 99)] "ios" ⟨0, 43200000000⟩ ⟨2, 0⟩).2.2
    (by
      intro d h1 h2
      simp only [List.contains, List.elem_eq_mem, List.mem_singleton,
        decide_eq_false_iff_not]
      intro hcontra
      rw [Prod.mk.injEq] at hcontra
      have hd99 := hcontra.2
      have h2d : d ≤ 2 := h2
      omega)
    (by decide)

/-- C5 counterexample: for the interval from day 1 at 18:00 to day 3 at
06:00 (start ≤ end, both times well formed), (end - start).days + 1 counts
only two days, so mark_scraped records days 1 and 2 but never day 3, a
calendar day lying in the closed interval. -/
theorem c5_mark_scraped_counterexample :
    markScraped [] "ios" ⟨1, 64800000000⟩ ⟨3, 21600000000⟩ = [("ios", 1), ("ios", 2)]
    ∧ ("ios", (3 : Int)) ∉ markScraped [] "ios" ⟨1, 64800000000⟩ ⟨3, 21600000000⟩
    ∧ dtLe ⟨1, 64800000000⟩ ⟨3, 21600000000⟩ := by
  refine ⟨by decide, by decide, Or.inl (by decide)⟩

/-- C5 as amended: for a well-formed interval whose start time-of-day does
not exceed its end time-of-day (all day-aligned calls), mark_scraped records
exactly the calendar days of the closed interval as covered for the platform
(each inserted only if absent, touching no other pair), and repeating the
call leaves the stored coverage completely unchanged.  (When the start
time-of-day exceeds the end time-of-day, the final calendar day of the
interval is not marked, as the counterexample shows.) -/
theorem c5_mark_scraped_idempotent_cover (h : ScrapeHistory) (p : String) (s e : PyDateTime)
    (hs : validTod s) (he : validTod e) (ht : s.tod ≤ e.tod) :
    (∀ q d, ((q, d) ∈ markScraped h p s e ↔ (q, d) ∈ h ∨ (q = p ∧ s.day ≤ d ∧ d ≤ e.day)))
    ∧ markScraped (markScraped h p s e) p s e = markScraped h p s e :=
  ⟨fun q d => mem_markScraped h p s e hs he ht q d, markScraped_idem h p s e⟩

/-- C5 witness: marking days 3..5 for a platform covers day 4, and repeating
the call changes nothing. -/
theorem c5_mark_scraped_idempotent_cover_witness :
    (("ios", (4 : Int)) ∈ markScraped [] "ios" ⟨3, 0⟩ ⟨5, 0⟩)
    ∧ markScraped (markScraped [] "ios" ⟨3, 0⟩ ⟨5, 0⟩) "ios" ⟨3, 0⟩ ⟨5, 0⟩
        = markScraped [] "ios" ⟨3, 0⟩ ⟨5, 0⟩ := by
  have h := c5_mark_scraped_idempotent_cover [] "ios" ⟨3, 0⟩ ⟨5, 0⟩
    ⟨by decide, by decide⟩ ⟨by decide, by decide⟩ (by decide)
  exact ⟨(h.1 "ios" 4).mpr (Or.inr ⟨rfl, by decide, by decide⟩), h.2⟩

/-- C6: marking an interval scraped and immediately querying the same
interval for the same platform yields no missing ranges, whatever coverage
was stored before. -/
theorem c6_mark_then_query_empty (h : ScrapeHistory) (p : String) (s e : PyDateTime)
    (hs : validTod s) (he : validTod e) (_hab : dtLe s e) :
    getMissingRanges (markScraped h p s e) p s e = [] := by
  unfold getMissingRanges
  apply gapWalk_all_covered
  intro d hd
  have hd' := hd
  rw [mem_daysFrom] at hd'
  have htd := tdDays_dtSub s e hs he
  have hde : d ≤ e.day := by
    rcases le_or_lt s.tod e.tod with h1 | h1
    · rw [if_pos h1] at htd; omega
    · rw [if_neg (by omega)] at htd; omega
  have hc : (p, d) ∈ markScraped h p s e := by
    unfold markScraped
    rw [mem_foldl_markStep]
    exact Or.inr ⟨rfl, hd⟩
  simp [covQuery, List.contains, List.elem_eq_mem, hc, hd'.1, hde]

/-- C6 witness: after marking days 1..10 on an empty store, the same query
has no gaps. -/
theorem c6_mark_then_query_empty_witness :
    getMissingRanges (markScraped [] "ios" ⟨1, 0⟩ ⟨10, 0⟩) "ios" ⟨1, 0⟩ ⟨10, 0⟩ = [] :=
  c6_mark_then_query_empty [] "ios" ⟨1, 0⟩ ⟨10, 0⟩
    ⟨by decide, by decide⟩ ⟨by decide, by decide⟩ (Or.inl (by decide))

/-- C3 (code bug): save_reviews tests the cumulative conn.total_changes of
the whole connection instead of the row count of the individual statement,
so once any record of the batch has inserted, every later record is counted
even when its insert was ignored as a duplicate: a batch of two identical
records on an empty store inserts one row yet returns 2. -/
theorem c3_save_reviews_count_bug :
    (saveReviews [] [sampleReview, sampleReview]).2 = 2
    ∧ (saveReviews [] [sampleReview, sampleReview]).1.length = 1 := by
  decide

/-- C7: saving two records with the same (platform, review_text, date) dedup
key, in one batch or in two successive calls, leaves the stored rows of the
second save identical to those after the first, and a single save grows the
store by at most one row; the duplicate insert is a silent no-op of the
total function, never an error. -/
theorem c7_save_reviews_dedup_key (rows : List ReviewRow) (r1 r2 : RawReview)
    (h1 : wellFormed r1) (h2 : wellFormed r2) (hk : rawKey r1 = rawKey r2) :
    (saveReviews rows [r1, r2]).1 = (saveReviews rows [r1]).1
    ∧ (saveReviews ((saveReviews rows [r1]).1) [r2]).1 = (saveReviews rows [r1]).1
    ∧ (saveReviews rows [r1]).1.length ≤ rows.length + 1 := by
  obtain ⟨hp1s, hr1s, hd1s⟩ := h1
  obtain ⟨hp2s, hr2s, hd2s⟩ := h2
  obtain ⟨p1, hp1⟩ := Option.isSome_iff_exists.mp hp1s
  obtain ⟨rat1, hr1⟩ := Option.isSome_iff_exists.mp hr1s
  obtain ⟨d1, hd1⟩ := Option.isSome_iff_exists.mp hd1s
  obtain ⟨p2, hp2⟩ := Option.isSome_iff_exists.mp hp2s
  obtain ⟨rat2, hr2⟩ := Option.isSome_iff_exists.mp hr2s
  obtain ⟨d2, hd2⟩ := Option.isSome_iff_exists.mp hd2s
  have hkey : (p1, rawText r1, d1) = (p2, rawText r2, d2) := by
    rw [← rawKey_eq r1 p1 d1 hp1 hd1, ← rawKey_eq r2 p2 d2 hp2 hd2, hk]
  have e1 := saveOne_eq_saveIns (rows, 0, 0) r1 p1 rat1 d1 hp1 hr1 hd1
  have hhk : hasKey (saveIns (rows, 0, 0) p1 rat1 (r1.title.getD "") (rawText r1) d1 r1).1
      (p2, rawText r2, d2) = true := by
    rw [← hkey]
    exact hasKey_saveIns (rows, 0, 0) p1 rat1 (r1.title.getD "") (rawText r1) d1 r1
  refine ⟨?_, ?_, ?_⟩
  · simp only [saveReviews, List.foldl_cons, List.foldl_nil]
    rw [e1, saveOne_eq_saveIns _ r2 p2 rat2 d2 hp2 hr2 hd2]
    exact saveIns_fst_of_hasKey _ p2 rat2 (r2.title.getD "") (rawText r2) d2 r2 hhk
  · simp only [saveReviews, List.foldl_cons, List.foldl_nil]
    rw [e1, saveOne_eq_saveIns _ r2 p2 rat2 d2 hp2 hr2 hd2]
    exact saveIns_fst_of_hasKey _ p2 rat2 (r2.title.getD "") (rawText r2) d2 r2 hhk
  · simp only [saveReviews, List.foldl_cons, List.foldl_nil]
    rw [e1, saveIns_fst]
    split
    · exact Nat.le_succ rows.length
    · rw [List.length_append]
      simp

/-- C7 witness: saving the same record twice in one batch, on an empty
store, leaves the same single row as saving it once. -/
theorem c7_save_reviews_dedup_key_witness :
    (saveReviews [] [sampleReview, sampleReview]).1 = (saveReviews [] [sampleReview]).1
    ∧ (saveReviews [] [sampleReview]).1.length ≤ 1 := by
  have h := c7_save_reviews_dedup_key [] sampleReview sampleReview
    ⟨rfl, rfl, rfl⟩ ⟨rfl, rfl, rfl⟩ rfl
  exact ⟨h.1, h.2.2⟩

/-- C8: upserting twice under one run id yields the same ledger as a single
upsert of the second record, and the resulting ledger holds exactly one row
for that id, carrying the fields of the second call. -/
theorem c8_upsert_run_log_replaces (rows : List RunRow) (d1 d2 : RunData) (n1 n2 : String)
    (hid : d1.run_id = d2.run_id) :
    upsertRunLog (upsertRunLog rows d1 n1) d2 n2 = upsertRunLog rows d2 n2
    ∧ (upsertRunLog (upsertRunLog rows d1 n1) d2 n2).filter (fun r => r.run_id == d2.run_id)
        = [rowOfData d2 n2] := by
  have h1 : upsertRunLog (upsertRunLog rows d1 n1) d2 n2 = upsertRunLog rows d2 n2 := by
    unfold upsertRunLog
    rw [hid]
    congr 1
    rw [List.filter_append, List.filter_filter]
    have hsing : [rowOfData d1 n1].filter (fun r => r.run_id != d2.run_id) = [] := by
      simp [rowOfData, hid]
    rw [hsing]
    simp
  have h2 : (upsertRunLog rows d2 n2).filter (fun r => r.run_id == d2.run_id)
      = [rowOfData d2 n2] := by
    unfold upsertRunLog
    rw [List.filter_append, List.filter_filter]
    have ha : rows.filter (fun a => (a.run_id == d2.run_id) && (a.run_id != d2.run_id)) = [] := by
      simp [bne]
    have hb : [rowOfData d2 n2].filter (fun r => r.run_id == d2.run_id) = [rowOfData d2 n2] := by
      simp [rowOfData]
    rw [ha, hb, List.nil_append]
  exact ⟨h1, by rw [h1]; exact h2⟩

/-- C8 witness: two upserts for run id r9, the second with status running,
leave one row whose fields come from the second call. -/
theorem c8_upsert_run_log_replaces_witness :
    (upsertRunLog (upsertRunLog []
        ⟨"r9", some "triggered", none, none, none, none, some "T1", none, none, none, none, none⟩ "N")
        ⟨"r9", some "running", none, none, none, none, some "T1", none, none, none, none, none⟩ "N").filter
      (fun r => r.run_id == (⟨"r9", some "running", none, none, none, none, some "T1", none, none, none, none, none⟩ : RunData).run_id)
      = [rowOfData ⟨"r9", some "running", none, none, none, none, some "T1", none, none, none, none, none⟩ "N"] :=
  (c8_upsert_run_log_replaces []
    ⟨"r9", some "triggered", none, none, none, none, some "T1", none, none, none, none, none⟩
    ⟨"r9", some "running", none, none, none, none, some "T1", none, none, none, none, none⟩
    "N" "N" rfl).2

/-- C9: updating the status of a run id that is absent from the ledger is a
silent no-op: the total function raises nothing and returns every existing
row unchanged. -/
theorem c9_update_run_status_missing_id (rows : List RunRow) (runId status : String)
    (kw : StatusPatch) (hnone : ∀ r ∈ rows, r.run_id ≠ runId) :
    updateRunStatus rows runId status kw = rows := by
  unfold updateRunStatus
  have hmap : ∀ r ∈ rows, (if r.run_id == runId then applyPatch r status kw else r) = r := by
    intro r hr
    rw [if_neg (by simpa using hnone r hr)]
  rw [List.map_congr_left hmap, List.map_id']

/-- C9 witness: patching an unknown run id leaves the one-row ledger
untouched. -/
theorem c9_update_run_status_missing_id_witness :
    updateRunStatus [runDone] "nope" "running" ⟨none, none, none, none, none⟩ = [runDone] :=
  c9_update_run_status_missing_id [runDone] "nope" "running"
    ⟨none, none, none, none, none⟩ (by decide)

/-- C2: purge refuses, returning the guard failure that carries the exact
count of active (triggered or running) runs, whenever that count is nonzero;
with no active run, an injected storage failure during the deletes yields
the storage failure with no new state observable (full rollback); and a
successful purge returns the store with all three tables empty and the
schema initialiser re-run, ready for use. -/
theorem c2_purge_guarded_atomic (db : DB) (f : Bool) :
    (0 < (db.run_history.filter isActive).length →
        purgeData db f = Except.error (PurgeErr.activeRuns (db.run_history.filter isActive).length))
    ∧ ((db.run_history.filter isActive).length = 0 → f = true →
        purgeData db f = Except.error PurgeErr.storage)
    ∧ ((db.run_history.filter isActive).length = 0 → f = false →
        purgeData db f = Except.ok (initDb ⟨[], [], []⟩)) := by
  refine ⟨?_, ?_, ?_⟩
  · intro h
    simp only [purgeData]
    rw [if_pos (by omega)]
  · intro h hf
    simp only [purgeData]
    rw [if_neg (by omega), hf, if_pos rfl]
  · intro h hf
    simp only [purgeData]
    rw [if_neg (by omega), hf, if_neg (by simp)]

/-- C2 witness: one triggered run blocks the purge with count 1; a ledger
holding only a terminal run purges to the freshly initialised empty store. -/
theorem c2_purge_guarded_atomic_witness :
    purgeData ⟨[], [], [runTriggered]⟩ false = Except.error (PurgeErr.activeRuns 1)
    ∧ purgeData ⟨[], [], [runDone]⟩ false = Except.ok (initDb ⟨[], [], []⟩) := by
  constructor
  · have h := (c2_purge_guarded_atomic ⟨[], [], [runTriggered]⟩ false).1 (by decide)
    have hlen : (((⟨[], [], [runTriggered]⟩ : DB).run_history.filter isActive).length) = 1 := by
      decide
    rw [hlen] at h
    exact h
  · exact (c2_purge_guarded_atomic ⟨[], [], [runDone]⟩ false).2.2 (by decide) rfl

/-- C10 counterexample: a storage failure inside list_run_history or
get_run_log is caught, logged and converted into the ordinary empty result,
so the caller cannot distinguish it from a successful call on an empty (or
missing) ledger: the failure is swallowed, not surfaced as a typed failure. -/
theorem c10_swallowed_failure_counterexample :
    listRunHistoryTry true [runDone] 20 = listRunHistoryTry false [] 20
    ∧ listRunHistoryTry false [runDone] 20 = [runDone]
    ∧ getRunLogTry true [runDone] "r2" = getRunLogTry false [runDone] "zzz"
    ∧ getRunLogTry false [runDone] "r2" = some runDone := by
  refine ⟨?_, ?_, by decide, by decide⟩
  · simp [listRunHistoryTry, listRunHistory]
  · simp [listRunHistoryTry, listRunHistory, List.mergeSort_singleton]

/-- C10 as amended: the operations without a handler around their storage
calls (mark_scraped, get_missing_ranges, save_reviews at connection level,
get_cached_reviews, has_platform_history, and purge_data once its guard has
passed) propagate a storage failure to the caller, while upsert_run_log,
update_run_status, list_run_history and get_run_log catch it, log it, and
return the ordinary default (old state, [], or none) with no failure signal;
no operation retries, and none crashes beyond the propagated exception. -/
theorem c10_failure_propagation_amended (h : ScrapeHistory) (p : String) (s e : PyDateTime)
    (rvRows : List ReviewRow) (batch : List RawReview) (aIso bIso : String)
    (rows : List RunRow) (d : RunData) (now runId status : String) (kw : StatusPatch)
    (lim : Nat) :
    markScrapedTry true h p s e = Except.error StorageErr.sqliteFailure
    ∧ getMissingRangesTry true h p s e = Except.error StorageErr.sqliteFailure
    ∧ saveReviewsTry true rvRows batch = Except.error StorageErr.sqliteFailure
    ∧ getCachedReviewsTry true rvRows aIso bIso = Except.error StorageErr.sqliteFailure
    ∧ hasPlatformHistoryTry true h p = Except.error StorageErr.sqliteFailure
    ∧ (∀ db : DB, (db.run_history.filter isActive).length = 0 →
        purgeData db true = Except.error PurgeErr.storage)
    ∧ upsertRunLogTry true rows d now = rows
    ∧ updateRunStatusTry true rows runId status kw = rows
    ∧ listRunHistoryTry true rows lim = []
    ∧ getRunLogTry true rows runId = none := by
  refine ⟨rfl, rfl, rfl, rfl, rfl, ?_, rfl, rfl, rfl, rfl⟩
  intro db hdb
  simp [purgeData, hdb]

/-- C10 amended witness: the propagation and swallowing behaviour at
concrete inputs, including a purge whose guard passes. -/
theorem c10_failure_propagation_amended_witness :
    markScrapedTry true [] "ios" ⟨1, 0⟩ ⟨2, 0⟩ = Except.error StorageErr.sqliteFailure
    ∧ saveReviewsTry true [] [sampleReview] = Except.error StorageErr.sqliteFailure
    ∧ purgeData ⟨[], [], [runDone]⟩ true = Except.error PurgeErr.storage := by
  have h := c10_failure_propagation_amended [] "ios" ⟨1, 0⟩ ⟨2, 0⟩ [] [sampleReview]
    "2024-01-01" "2024-01-02" []
    ⟨"r9", none, none, none, none, none, none, none, none, none, none, none⟩
    "N" "id" "st" ⟨none, none, none, none, none⟩ 20
  exact ⟨h.1, h.2.2.1, h.2.2.2.2.2.1 ⟨[], [], [runDone]⟩ (by decide)⟩

end Pulse
